import Mathlib

/-!
Verification of the heightmap-normalization core of
`src/data-processing/image_processor.py` (`convert_tiff_to_heightmap`).

The numeric cells are modelled by an explicit IEEE-style value type `F`:
a finite value is an exact rational, and NaN and the two infinities are
explicit constructors.  The floating-point operations that the pipeline
uses (subtraction, division, multiplication, comparison, `np.isclose`,
`np.clip`, `np.nan_to_num`, the `uint8` cast) are given their IEEE
semantics on this type; finite arithmetic is exact rational arithmetic,
which agrees with the float computation on every claim-relevant input
(the boundary values 0 and 1 of the normalization are produced exactly
by floating-point arithmetic as well).
-/

set_option maxRecDepth 8000

/-- An IEEE-style scalar: an exact finite rational, NaN, or an infinity. -/
inductive F where
  | fin (q : ℚ) : F
  | nan : F
  | pinf : F
  | ninf : F
deriving DecidableEq, Repr

namespace F

/-- IEEE equality test (`==` in numpy): NaN compares unequal to everything,
including itself; infinities compare equal only to themselves. -/
def feq : F → F → Bool
  | fin a, fin b => decide (a = b)
  | pinf, pinf => true
  | ninf, ninf => true
  | _, _ => false

/-- IEEE `<=`: false whenever either side is NaN. -/
def fle : F → F → Bool
  | fin a, fin b => decide (a ≤ b)
  | ninf, fin _ => true
  | ninf, pinf => true
  | ninf, ninf => true
  | fin _, pinf => true
  | pinf, pinf => true
  | _, _ => false

/-- IEEE `<`: false whenever either side is NaN. -/
def flt : F → F → Bool
  | fin a, fin b => decide (a < b)
  | ninf, fin _ => true
  | ninf, pinf => true
  | fin _, pinf => true
  | _, _ => false

/-- IEEE addition on `F`. -/
def fadd : F → F → F
  | nan, _ => nan
  | _, nan => nan
  | fin a, fin b => fin (a + b)
  | fin _, pinf => pinf
  | fin _, ninf => ninf
  | pinf, fin _ => pinf
  | ninf, fin _ => ninf
  | pinf, pinf => pinf
  | ninf, ninf => ninf
  | pinf, ninf => nan
  | ninf, pinf => nan

/-- IEEE subtraction on `F`. -/
def fsub : F → F → F
  | nan, _ => nan
  | _, nan => nan
  | fin a, fin b => fin (a - b)
  | fin _, pinf => ninf
  | fin _, ninf => pinf
  | pinf, fin _ => pinf
  | ninf, fin _ => ninf
  | pinf, pinf => nan
  | ninf, ninf => nan
  | pinf, ninf => pinf
  | ninf, pinf => ninf

/-- IEEE multiplication on `F`. -/
def fmul : F → F → F
  | nan, _ => nan
  | _, nan => nan
  | fin a, fin b => fin (a * b)
  | fin a, pinf => if a = 0 then nan else if 0 < a then pinf else ninf
  | fin a, ninf => if a = 0 then nan else if 0 < a then ninf else pinf
  | pinf, fin b => if b = 0 then nan else if 0 < b then pinf else ninf
  | ninf, fin b => if b = 0 then nan else if 0 < b then ninf else pinf
  | pinf, pinf => pinf
  | ninf, ninf => pinf
  | pinf, ninf => ninf
  | ninf, pinf => ninf

/-- IEEE division on `F` (a finite quantity divided by zero gives a signed
infinity, zero over zero and infinity over infinity give NaN). -/
def fdiv : F → F → F
  | nan, _ => nan
  | _, nan => nan
  | fin a, fin b =>
      if b = 0 then (if a = 0 then nan else if 0 < a then pinf else ninf)
      else fin (a / b)
  | fin _, pinf => fin 0
  | fin _, ninf => fin 0
  | pinf, fin b => if 0 ≤ b then pinf else ninf
  | ninf, fin b => if 0 ≤ b then ninf else pinf
  | pinf, pinf => nan
  | pinf, ninf => nan
  | ninf, pinf => nan
  | ninf, ninf => nan

/-- Binary minimum used by the NaN-skipping reduction (its arguments are
always non-NaN because NaN cells are filtered out beforehand). -/
def fmin (a b : F) : F := if fle a b then a else b

/-- Binary maximum used by the NaN-skipping reduction. -/
def fmax (a b : F) : F := if fle a b then b else a

end F

open F

/-- Absolute tolerance of `np.isclose` (numpy default `atol=1e-8`). -/
def atol : ℚ := 1 / 100000000

/-- Relative tolerance of `np.isclose` (numpy default `rtol=1e-5`). -/
def rtol : ℚ := 1 / 100000

/-- Model of `np.isclose(a, b)` with the default tolerances: for finite
arguments, `|a - b| <= atol + rtol * |b|`; when either argument is
non-finite the result is the IEEE equality test (so NaN is never close to
anything, and equal infinities are close). -/
def isclose (a b : F) : Bool :=
  match a, b with
  | F.fin x, F.fin y => decide (|x - y| ≤ atol + rtol * |y|)
  | F.nan, _ => false
  | _, F.nan => false
  | x, y => feq x y

/-- Clamping of a rational into `[0, 1]`. -/
def clipQ (x : ℚ) : ℚ := max 0 (min 1 x)

/-- Model of `np.clip(x, 0.0, 1.0)`: NaN propagates, infinities clamp to
the corresponding bound, finite values clamp into `[0, 1]`. -/
def clip01 : F → F
  | F.nan => F.nan
  | F.pinf => F.fin 1
  | F.ninf => F.fin 0
  | F.fin q => F.fin (clipQ q)

/-- Model of `np.nan_to_num(x, nan=0.0, posinf=1.0, neginf=0.0)`. -/
def nanToNum : F → F
  | F.nan => F.fin 0
  | F.pinf => F.fin 1
  | F.ninf => F.fin 0
  | F.fin q => F.fin q

/-- Truncation toward zero of a rational, as a C float-to-integer cast does. -/
def truncQ (q : ℚ) : ℤ := if 0 ≤ q then ⌊q⌋ else ⌈q⌉

/-- Model of `astype(np.uint8)` on a scalar: truncate toward zero and wrap
into the 8-bit range (the pipeline only ever reaches it with finite values
in `[0, 255]`, where no wrapping happens; the non-finite cases, which a C
cast leaves undefined, are given an arbitrary fixed value). -/
def toUInt8 : F → ℕ
  | F.fin q => (truncQ q % 256).toNat
  | _ => 0

/-- Model of one cell of `np.where(data == nodata_val, np.nan, data)`
(line 24 of the source): a cell exactly equal to the sentinel becomes NaN,
every other cell is kept. With no sentinel the grid is unchanged. -/
def maskCell (s : Option F) (v : F) : F :=
  match s with
  | none => v
  | some sv => if feq v sv then F.nan else v

/-- The masked working grid `data` of the source. -/
def maskGrid (g : List (List F)) (s : Option F) : List (List F) :=
  g.map (fun row => row.map (maskCell s))

/-- The multiset of values a NaN-skipping numpy reduction aggregates:
all cells of the (masked) grid that are not NaN, in row-major order. -/
def validVals (d : List (List F)) : List F :=
  d.flatten.filter (fun v => decide (v ≠ F.nan))

/-- Model of `np.nanmin(data)` (line 28): minimum over non-NaN cells,
NaN when every cell is NaN. -/
def nanminG (d : List (List F)) : F :=
  match validVals d with
  | [] => F.nan
  | v :: vs => vs.foldl fmin v

/-- Model of `np.nanmax(data)` (line 29). -/
def nanmaxG (d : List (List F)) : F :=
  match validVals d with
  | [] => F.nan
  | v :: vs => vs.foldl fmax v

/-- Model of `np.nanmean(data)` (line 30): sum of the non-NaN cells over
their count; the all-NaN grid gives `0 / 0 = NaN`. -/
def nanmeanG (d : List (List F)) : F :=
  fdiv ((validVals d).foldl fadd (F.fin 0)) (F.fin ((validVals d).length))

/-- Model of the square of `np.nanstd(data)` (line 31): the population
variance of the non-NaN cells (denominator = their count, not count − 1);
the reported standard deviation is its square root. The all-NaN grid
gives `0 / 0 = NaN`. -/
def nanvarG (d : List (List F)) : F :=
  let m := nanmeanG d
  fdiv ((validVals d).foldl (fun acc v => fadd acc (fmul (fsub v m) (fsub v m))) (F.fin 0))
    (F.fin ((validVals d).length))

/-- The four printed statistics (minimum, maximum, mean, variance =
squared standard deviation), computed on the masked grid. -/
def statsOf (g : List (List F)) (s : Option F) : F × F × F × F :=
  let d := maskGrid g s
  (nanminG d, nanmaxG d, nanmeanG d, nanvarG d)

/-- One cell of the non-degenerate scaling branch (lines 50–59):
`(v - min) / (max - min)`, clipped to `[0,1]`, NaN/±inf replaced by the
fallback values, multiplied by 255 and cast to `uint8`. -/
def scaleCell (dmin dmax v : F) : ℕ :=
  toUInt8 (fmul (F.fin 255) (nanToNum (clip01 (fdiv (fsub v dmin) (fsub dmax dmin)))))

/-- The normalization core of `convert_tiff_to_heightmap`, with the file
I/O and the printing stripped: mask the sentinel, compute the range, and
either fill the output with the flat mid-gray 128 (degenerate range) or
scale each cell into `[0, 255]`. -/
def convert_tiff_to_heightmap (g : List (List F)) (s : Option F) : List (List ℕ) :=
  let data := maskGrid g s
  let dmin := nanminG data
  let dmax := nanmaxG data
  if isclose dmin dmax then
    data.map (fun row => row.map (fun _ => 128))
  else
    data.map (fun row => row.map (scaleCell dmin dmax))

/-- The single internal failure point of the pipeline, made explicit:
every numpy reduction in lines 28–31 raises `ValueError` on a zero-size
array, and nothing else in the core raises.  `convertChecked` returns
that error exactly when the working grid has zero cells, and otherwise
the normal result. -/
def convertChecked (g : List (List F)) (s : Option F) :
    Except String (List (List ℕ)) :=
  if (maskGrid g s).flatten = [] then
    Except.error "zero-size array to reduction operation"
  else
    Except.ok (convert_tiff_to_heightmap g s)

/-- Cell lookup in a row-major grid. -/
def getCell {α : Type} (g : List (List α)) (i j : ℕ) : Option α :=
  g[i]?.bind (fun r => r[j]?)

/-- Replacing the value of one cell of a grid. -/
def setCell {α : Type} (g : List (List α)) (i j : ℕ) (v : α) : List (List α) :=
  g.set i ((g.getD i []).set j v)

namespace F

/-- Reflexivity of the IEEE order on non-NaN values. -/
lemma fle_refl {a : F} (h : a ≠ F.nan) : fle a a = true := by
  cases a <;> simp_all [fle]

/-- Totality of the IEEE order on non-NaN values. -/
lemma fle_total {a b : F} (ha : a ≠ F.nan) (hb : b ≠ F.nan) :
    fle a b = true ∨ fle b a = true := by
  cases a <;> cases b <;> simp_all [fle]
  exact le_total _ _

/-- Transitivity of the IEEE order. -/
lemma fle_trans {a b c : F} (h1 : fle a b = true) (h2 : fle b c = true) :
    fle a c = true := by
  cases a <;> cases b <;> cases c <;> simp_all [fle]
  exact le_trans h1 h2

lemma fmin_ne_nan {a b : F} (ha : a ≠ F.nan) (hb : b ≠ F.nan) : fmin a b ≠ F.nan := by
  unfold fmin; split <;> assumption

lemma fmax_ne_nan {a b : F} (ha : a ≠ F.nan) (hb : b ≠ F.nan) : fmax a b ≠ F.nan := by
  unfold fmax; split <;> assumption

lemma fle_fmin_left {a b : F} (ha : a ≠ F.nan) (hb : b ≠ F.nan) :
    fle (fmin a b) a = true := by
  unfold fmin; split
  · exact fle_refl ha
  · rcases fle_total ha hb with h | h
    · simp_all
    · exact h

lemma fle_fmin_right {a b : F} (ha : a ≠ F.nan) (hb : b ≠ F.nan) :
    fle (fmin a b) b = true := by
  unfold fmin; split
  · assumption
  · exact fle_refl hb

lemma fle_fmax_left {a b : F} (ha : a ≠ F.nan) (hb : b ≠ F.nan) :
    fle a (fmax a b) = true := by
  unfold fmax; split
  · assumption
  · exact fle_refl ha

lemma fle_fmax_right {a b : F} (ha : a ≠ F.nan) (hb : b ≠ F.nan) :
    fle b (fmax a b) = true := by
  unfold fmax; split
  · exact fle_refl hb
  · rcases fle_total ha hb with h | h
    · simp_all
    · exact h

/-- Folding the binary minimum over a list of copies of the seed gives the seed. -/
lemma foldl_fmin_const (v : F) : ∀ l : List F, (∀ x ∈ l, x = v) → l.foldl fmin v = v := by
  intro l
  induction l with
  | nil => intro _; rfl
  | cons x xs ih =>
    intro h
    have hx : x = v := h x (by simp)
    subst hx
    simp only [List.foldl_cons, fmin, ite_self]
    exact ih fun y hy => h y (by simp [hy])

/-- Folding the binary maximum over a list of copies of the seed gives the seed. -/
lemma foldl_fmax_const (v : F) : ∀ l : List F, (∀ x ∈ l, x = v) → l.foldl fmax v = v := by
  intro l
  induction l with
  | nil => intro _; rfl
  | cons x xs ih =>
    intro h
    have hx : x = v := h x (by simp)
    subst hx
    simp only [List.foldl_cons, fmax, ite_self]
    exact ih fun y hy => h y (by simp [hy])

/-- The minimum fold is non-NaN and is a lower bound of the seed and of
every element, provided no NaN is involved. -/
lemma foldl_fmin_le (l : List F) : ∀ a : F, a ≠ F.nan → (∀ x ∈ l, x ≠ F.nan) →
    l.foldl fmin a ≠ F.nan ∧ fle (l.foldl fmin a) a = true ∧
      ∀ v ∈ l, fle (l.foldl fmin a) v = true := by
  induction l with
  | nil =>
    intro a ha _
    exact ⟨ha, fle_refl ha, by simp⟩
  | cons x xs ih =>
    intro a ha hl
    have hx : x ≠ F.nan := hl x (by simp)
    have hxs : ∀ y ∈ xs, y ≠ F.nan := fun y hy => hl y (by simp [hy])
    have hmin : fmin a x ≠ F.nan := fmin_ne_nan ha hx
    obtain ⟨h1, h2, h3⟩ := ih (fmin a x) hmin hxs
    simp only [List.foldl_cons]
    refine ⟨h1, fle_trans h2 (fle_fmin_left ha hx), ?_⟩
    intro v hv
    rcases List.mem_cons.mp hv with rfl | hv
    · exact fle_trans h2 (fle_fmin_right ha hx)
    · exact h3 v hv

/-- The maximum fold is non-NaN and is an upper bound of the seed and of
every element, provided no NaN is involved. -/
lemma foldl_fmax_ge (l : List F) : ∀ a : F, a ≠ F.nan → (∀ x ∈ l, x ≠ F.nan) →
    l.foldl fmax a ≠ F.nan ∧ fle a (l.foldl fmax a) = true ∧
      ∀ v ∈ l, fle v (l.foldl fmax a) = true := by
  induction l with
  | nil =>
    intro a ha _
    exact ⟨ha, fle_refl ha, by simp⟩
  | cons x xs ih =>
    intro a ha hl
    have hx : x ≠ F.nan := hl x (by simp)
    have hxs : ∀ y ∈ xs, y ≠ F.nan := fun y hy => hl y (by simp [hy])
    have hmax : fmax a x ≠ F.nan := fmax_ne_nan ha hx
    obtain ⟨h1, h2, h3⟩ := ih (fmax a x) hmax hxs
    simp only [List.foldl_cons]
    refine ⟨h1, fle_trans (fle_fmax_left ha hx) h2, ?_⟩
    intro v hv
    rcases List.mem_cons.mp hv with rfl | hv
    · exact fle_trans (fle_fmax_right ha hx) h2
    · exact h3 v hv

end F

/-- Members of the aggregated value list are never NaN. -/
lemma validVals_ne_nan {d : List (List F)} {v : F} (h : v ∈ validVals d) :
    v ≠ F.nan := by
  have := List.mem_filter.mp h
  simpa using this.2

/-- The NaN-skipping minimum is a lower bound of every aggregated value. -/
lemma nanminG_le {d : List (List F)} {v : F} (h : v ∈ validVals d) :
    fle (nanminG d) v = true := by
  unfold nanminG
  rcases hv : validVals d with _ | ⟨w, ws⟩
  · rw [hv] at h; cases h
  · rw [hv] at h
    have hw : w ≠ F.nan := validVals_ne_nan (hv ▸ List.mem_cons_self w ws)
    have hws : ∀ y ∈ ws, y ≠ F.nan := fun y hy =>
      validVals_ne_nan (hv ▸ List.mem_cons_of_mem w hy)
    obtain ⟨_, h2, h3⟩ := F.foldl_fmin_le ws w hw hws
    rcases List.mem_cons.mp h with rfl | h
    · exact h2
    · exact h3 v h

/-- The NaN-skipping maximum is an upper bound of every aggregated value. -/
lemma le_nanmaxG {d : List (List F)} {v : F} (h : v ∈ validVals d) :
    fle v (nanmaxG d) = true := by
  unfold nanmaxG
  rcases hv : validVals d with _ | ⟨w, ws⟩
  · rw [hv] at h; cases h
  · rw [hv] at h
    have hw : w ≠ F.nan := validVals_ne_nan (hv ▸ List.mem_cons_self w ws)
    have hws : ∀ y ∈ ws, y ≠ F.nan := fun y hy =>
      validVals_ne_nan (hv ▸ List.mem_cons_of_mem w hy)
    obtain ⟨_, h2, h3⟩ := F.foldl_fmax_ge ws w hw hws
    rcases List.mem_cons.mp h with rfl | h
    · exact h2
    · exact h3 v h

/-- Cell lookup commutes with per-cell mapping. -/
lemma getCell_map {α β : Type} (f : α → β) (g : List (List α)) (i j : ℕ) :
    getCell (g.map (fun r => r.map f)) i j = (getCell g i j).map f := by
  unfold getCell
  rw [List.getElem?_map]
  cases g[i]? with
  | none => rfl
  | some r => simp [List.getElem?_map]

/-- A value found by cell lookup is a member of the flattened grid. -/
lemma mem_flatten_of_getCell {α : Type} {g : List (List α)} {i j : ℕ} {v : α}
    (h : getCell g i j = some v) : v ∈ g.flatten := by
  unfold getCell at h
  cases hg : g[i]? with
  | none => rw [hg] at h; cases h
  | some r =>
    rw [hg] at h
    simp only [Option.some_bind] at h
    exact List.mem_flatten.mpr ⟨r, List.getElem?_mem hg, List.getElem?_mem h⟩

/-- A non-NaN value found by cell lookup is aggregated by the statistics. -/
lemma mem_validVals {d : List (List F)} {i j : ℕ} {v : F}
    (h : getCell d i j = some v) (hv : v ≠ F.nan) : v ∈ validVals d :=
  List.mem_filter.mpr ⟨mem_flatten_of_getCell h, by simpa using hv⟩

/-- Mapping commutes with pointwise list update. -/
lemma map_set_comm {α β : Type} (f : α → β) :
    ∀ (l : List α) (i : ℕ) (a : α), (l.set i a).map f = (l.map f).set i (f a) := by
  intro l
  induction l with
  | nil => intro i a; rfl
  | cons x xs ih =>
    intro i a
    cases i with
    | zero => rfl
    | succ n => simp [List.set, ih]

/-- Updating a position with the value it already holds is the identity. -/
lemma set_self_of_getElem {α : Type} :
    ∀ (l : List α) (i : ℕ) (v : α), l[i]? = some v → l.set i v = l := by
  intro l
  induction l with
  | nil => intro i v h; cases h
  | cons x xs ih =>
    intro i v h
    cases i with
    | zero =>
      simp only [List.getElem?_cons_zero, Option.some.injEq] at h
      subst h
      rfl
    | succ n =>
      simp only [List.getElem?_cons_succ] at h
      simp [List.set, ih n v h]

/-- Strict IEEE order implies the weak one. -/
lemma fle_of_flt {a b : F} (h : F.flt a b = true) : F.fle a b = true := by
  cases a <;> cases b <;> simp_all [F.flt, F.fle]
  exact le_of_lt h

/-- The clip keeps rationals in `[0, 1]`. -/
lemma clipQ_nonneg (x : ℚ) : 0 ≤ clipQ x := le_max_left _ _

lemma clipQ_le_one (x : ℚ) : clipQ x ≤ 1 := max_le (by norm_num) (min_le_left _ _)

lemma clipQ_mono {x y : ℚ} (h : x ≤ y) : clipQ x ≤ clipQ y :=
  max_le_max le_rfl (min_le_min le_rfl h)

/-- With a finite positive range, a finite cell scales to the truncation of
255 times its clipped normalized value. -/
lemma scaleCell_fin_fin_eval {m M : ℚ} (q : ℚ) (hne : M - m ≠ 0) :
    scaleCell (F.fin m) (F.fin M) (F.fin q)
      = (⌊(255 : ℚ) * clipQ ((q - m) / (M - m))⌋).toNat := by
  have hc0 : (0 : ℚ) ≤ clipQ ((q - m) / (M - m)) := clipQ_nonneg _
  have hc1 : clipQ ((q - m) / (M - m)) ≤ 1 := clipQ_le_one _
  have h0 : (0 : ℚ) ≤ 255 * clipQ ((q - m) / (M - m)) := by positivity
  have h255 : (255 : ℚ) * clipQ ((q - m) / (M - m)) ≤ 255 := by nlinarith
  have hfl0 : (0 : ℤ) ≤ ⌊(255 : ℚ) * clipQ ((q - m) / (M - m))⌋ :=
    Int.floor_nonneg.mpr h0
  have hfl255 : (⌊(255 : ℚ) * clipQ ((q - m) / (M - m))⌋ : ℚ) ≤ 255 :=
    le_trans (Int.floor_le _) h255
  have hlt256 : ⌊(255 : ℚ) * clipQ ((q - m) / (M - m))⌋ < 256 := by
    have : ⌊(255 : ℚ) * clipQ ((q - m) / (M - m))⌋ ≤ 255 := by exact_mod_cast hfl255
    omega
  simp only [scaleCell, fsub, fdiv, fmul, clip01, nanToNum, toUInt8, truncQ,
    if_neg hne, if_pos h0]
  rw [Int.emod_eq_of_lt hfl0 hlt256]

/-- With a finite positive range, the negative-infinity cell scales to 0. -/
lemma scaleCell_fin_fin_ninf {m M : ℚ} (hlt : m < M) :
    scaleCell (F.fin m) (F.fin M) F.ninf = 0 := by
  have h : (0 : ℚ) ≤ M - m := by linarith
  simp [scaleCell, fsub, fdiv, fmul, clip01, nanToNum, toUInt8, truncQ, clipQ, h]

/-- With a finite positive range, the positive-infinity cell scales to 255. -/
lemma scaleCell_fin_fin_pinf {m M : ℚ} (hlt : m < M) :
    scaleCell (F.fin m) (F.fin M) F.pinf = 255 := by
  have h : (0 : ℚ) ≤ M - m := by linarith
  simp [scaleCell, fsub, fdiv, fmul, clip01, nanToNum, toUInt8, truncQ, clipQ, h]

/-- With a finite positive range, the NaN cell scales to 0 (the fallback). -/
lemma scaleCell_fin_fin_nan {m M : ℚ} :
    scaleCell (F.fin m) (F.fin M) F.nan = 0 := by
  simp [scaleCell, fsub, fdiv, fmul, clip01, nanToNum, toUInt8, truncQ]

/-- When the maximum is infinite, every cell scales to 0. -/
lemma scaleCell_fin_pinf (m : ℚ) (v : F) : scaleCell (F.fin m) F.pinf v = 0 := by
  cases v <;> simp [scaleCell, fsub, fdiv, fmul, clip01, nanToNum, toUInt8, truncQ, clipQ]

/-- When the minimum is negative infinity and the maximum finite, every
cell scales to 0. -/
lemma scaleCell_ninf_fin (M : ℚ) (v : F) : scaleCell F.ninf (F.fin M) v = 0 := by
  cases v <;> simp [scaleCell, fsub, fdiv, fmul, clip01, nanToNum, toUInt8, truncQ, clipQ]

/-- When both extremes are infinite, every cell scales to 0. -/
lemma scaleCell_ninf_pinf (v : F) : scaleCell F.ninf F.pinf v = 0 := by
  cases v <;> simp [scaleCell, fsub, fdiv, fmul, clip01, nanToNum, toUInt8, truncQ, clipQ]

/-- With a finite positive range, every scaled cell is at most 255. -/
lemma scaleCell_fin_fin_le255 {m M : ℚ} (hlt : m < M) (v : F) :
    scaleCell (F.fin m) (F.fin M) v ≤ 255 := by
  have hne : M - m ≠ 0 := by intro h; linarith [sub_eq_zero.mp h]
  cases v with
  | nan => rw [scaleCell_fin_fin_nan]; omega
  | ninf => rw [scaleCell_fin_fin_ninf hlt]; omega
  | pinf => rw [scaleCell_fin_fin_pinf hlt]
  | fin q =>
    rw [scaleCell_fin_fin_eval q hne]
    have hc1 : clipQ ((q - m) / (M - m)) ≤ 1 := clipQ_le_one _
    have h255 : (255 : ℚ) * clipQ ((q - m) / (M - m)) ≤ 255 := by nlinarith
    have hfl255 : (⌊(255 : ℚ) * clipQ ((q - m) / (M - m))⌋ : ℚ) ≤ 255 :=
      le_trans (Int.floor_le _) h255
    have : ⌊(255 : ℚ) * clipQ ((q - m) / (M - m))⌋ ≤ 255 := by exact_mod_cast hfl255
    omega

/-- With a finite positive range, scaling is monotone on finite cells. -/
lemma scaleCell_fin_fin_mono {m M qa qb : ℚ} (hlt : m < M) (hq : qa ≤ qb) :
    scaleCell (F.fin m) (F.fin M) (F.fin qa) ≤ scaleCell (F.fin m) (F.fin M) (F.fin qb) := by
  have hne : M - m ≠ 0 := by intro h; linarith [sub_eq_zero.mp h]
  rw [scaleCell_fin_fin_eval qa hne, scaleCell_fin_fin_eval qb hne]
  have hpos : (0 : ℚ) < M - m := by linarith
  have hdiv : (qa - m) / (M - m) ≤ (qb - m) / (M - m) :=
    (div_le_div_iff_of_pos_right hpos).mpr (by linarith)
  have hclip := clipQ_mono hdiv
  have hmul : (255 : ℚ) * clipQ ((qa - m) / (M - m)) ≤ 255 * clipQ ((qb - m) / (M - m)) := by
    nlinarith
  exact Int.toNat_le_toNat (Int.floor_le_floor hmul)

/-- Monotonicity of the scaling step: over cells bracketed by the range
extremes, a strictly smaller cell value gives an output intensity that is
at most that of the larger value, whatever the shape of the range. -/
lemma scaleCell_mono {dmin dmax va vb : F}
    (ha : F.fle dmin va = true) (hb : F.fle vb dmax = true)
    (hab : F.flt va vb = true) :
    scaleCell dmin dmax va ≤ scaleCell dmin dmax vb := by
  cases dmin with
  | nan => simp [F.fle] at ha
  | pinf =>
    cases va <;> simp_all [F.fle, F.flt]
  | ninf =>
    cases dmax with
    | nan => simp [F.fle] at hb
    | fin M => rw [scaleCell_ninf_fin, scaleCell_ninf_fin]
    | pinf => rw [scaleCell_ninf_pinf, scaleCell_ninf_pinf]
    | ninf =>
      cases vb <;> simp_all [F.fle, F.flt]
  | fin m =>
    cases dmax with
    | nan => simp [F.fle] at hb
    | pinf => rw [scaleCell_fin_pinf, scaleCell_fin_pinf]
    | ninf =>
      cases vb <;> simp_all [F.fle, F.flt]
    | fin M =>
      cases va with
      | nan => simp [F.fle] at ha
      | pinf =>
        cases vb <;> simp_all [F.flt]
      | ninf => simp [F.fle] at ha
      | fin qa =>
        cases vb with
        | nan => simp [F.flt] at hab
        | ninf => simp [F.flt] at hab
        | pinf => simp [F.fle] at hb
        | fin qb =>
          simp only [F.fle, decide_eq_true_eq] at ha hb
          simp only [F.flt, decide_eq_true_eq] at hab
          have hlt : m < M := by linarith
          exact scaleCell_fin_fin_mono hlt (le_of_lt hab)

/-- Strict IEEE order excludes NaN on both sides. -/
lemma flt_ne_nan {a b : F} (h : F.flt a b = true) : a ≠ F.nan ∧ b ≠ F.nan := by
  cases a <;> cases b <;> simp_all [F.flt]

/-- Every member of a mapped-grid flattening is the image of a cell. -/
lemma mem_flatten_map {α β : Type} {f : α → β} {g : List (List α)} {b : β}
    (h : b ∈ (g.map (fun row => row.map f)).flatten) :
    ∃ a, a ∈ g.flatten ∧ b = f a := by
  rcases List.mem_flatten.mp h with ⟨row, hrow, hb⟩
  rcases List.mem_map.mp hrow with ⟨r0, hr0, rfl⟩
  rcases List.mem_map.mp hb with ⟨a, ha, rfl⟩
  exact ⟨a, List.mem_flatten.mpr ⟨r0, hr0, ha⟩, rfl⟩

/-- In the degenerate branch the output is the flat 128 fill. -/
lemma convert_flat_getCell {g : List (List F)} {s : Option F} (i j : ℕ)
    (hcl : isclose (nanminG (maskGrid g s)) (nanmaxG (maskGrid g s)) = true) :
    getCell (convert_tiff_to_heightmap g s) i j
      = (getCell (maskGrid g s) i j).map (fun _ => 128) := by
  simp only [convert_tiff_to_heightmap]
  rw [if_pos hcl]
  exact getCell_map _ _ _ _

/-- In the scaling branch the output is the per-cell scaling of the mask. -/
lemma convert_scale_getCell {g : List (List F)} {s : Option F} (i j : ℕ)
    (hcl : isclose (nanminG (maskGrid g s)) (nanmaxG (maskGrid g s)) = false) :
    getCell (convert_tiff_to_heightmap g s) i j
      = (getCell (maskGrid g s) i j).map
          (scaleCell (nanminG (maskGrid g s)) (nanmaxG (maskGrid g s))) := by
  simp only [convert_tiff_to_heightmap]
  rw [if_neg (by simp [hcl])]
  exact getCell_map _ _ _ _

/-- C2: for every input grid and sentinel whose valid values are all
numerically equal — operationally, whose NaN-skipping minimum and maximum
pass the `np.isclose` test — linear scaling is skipped and every output
cell, valid or invalid, equals the fixed mid-gray intensity 128. -/
theorem degenerate_range_all_cells_128 (g : List (List F)) (s : Option F) (n : ℕ)
    (hclose : isclose (nanminG (maskGrid g s)) (nanmaxG (maskGrid g s)) = true)
    (hn : n ∈ (convert_tiff_to_heightmap g s).flatten) : n = 128 := by
  simp only [convert_tiff_to_heightmap] at hn
  rw [if_pos hclose] at hn
  obtain ⟨a, _, rfl⟩ := mem_flatten_map hn
  rfl

/-- Witness for C2 on the all-fives grid of spec scenario 2. -/
theorem degenerate_range_all_cells_128_witness :
    isclose (nanminG (maskGrid [[F.fin 5, F.fin 5], [F.fin 5, F.fin 5]] none))
        (nanmaxG (maskGrid [[F.fin 5, F.fin 5], [F.fin 5, F.fin 5]] none)) = true ∧
    (128 : ℕ) ∈ (convert_tiff_to_heightmap [[F.fin 5, F.fin 5], [F.fin 5, F.fin 5]] none).flatten ∧
    (128 : ℕ) = 128 :=
  ⟨by with_unfolding_all rfl, by with_unfolding_all decide,
    degenerate_range_all_cells_128 [[F.fin 5, F.fin 5], [F.fin 5, F.fin 5]] none 128
      (by with_unfolding_all rfl) (by with_unfolding_all decide)⟩

/-- Every cast result is an 8-bit value. -/
lemma toUInt8_le (f : F) : toUInt8 f ≤ 255 := by
  cases f with
  | fin q =>
    have h1 : 0 ≤ truncQ q % 256 := Int.emod_nonneg _ (by norm_num)
    have h2 : truncQ q % 256 < 256 := Int.emod_lt_of_pos _ (by norm_num)
    simp only [toUInt8]
    omega
  | nan => exact Nat.zero_le _
  | pinf => exact Nat.zero_le _
  | ninf => exact Nat.zero_le _

/-- C5: every cell of the output intensity grid lies in the closed range
[0, 255], for every input grid and sentinel (including all-missing,
all-NaN and infinite-valued inputs). -/
theorem output_intensity_in_range (g : List (List F)) (s : Option F) (n : ℕ)
    (hn : n ∈ (convert_tiff_to_heightmap g s).flatten) : 0 ≤ n ∧ n ≤ 255 := by
  refine ⟨Nat.zero_le _, ?_⟩
  simp only [convert_tiff_to_heightmap] at hn
  by_cases hcl : isclose (nanminG (maskGrid g s)) (nanmaxG (maskGrid g s)) = true
  · rw [if_pos hcl] at hn
    obtain ⟨a, _, rfl⟩ := mem_flatten_map hn
    omega
  · rw [if_neg hcl] at hn
    obtain ⟨a, _, rfl⟩ := mem_flatten_map hn
    exact toUInt8_le _

/-- Witness for C5 on a grid holding a NaN, an infinity and a sentinel. -/
theorem output_intensity_in_range_witness :
    (0 : ℕ) ∈ (convert_tiff_to_heightmap [[F.nan, F.pinf], [F.fin (-99), F.fin 2]]
        (some (F.fin (-99)))).flatten ∧
    (0 ≤ (0 : ℕ) ∧ (0 : ℕ) ≤ 255) :=
  ⟨by with_unfolding_all decide,
    output_intensity_in_range [[F.nan, F.pinf], [F.fin (-99), F.fin 2]]
      (some (F.fin (-99))) 0 (by with_unfolding_all decide)⟩

/-- C4: when the valid minimum differs from the valid maximum, the
cell-value-to-intensity map is monotone non-decreasing: two valid cells
with strictly ordered values give outputs in the same weak order. -/
theorem scaling_monotone (g : List (List F)) (s : Option F)
    (i j k l : ℕ) (va vb : F) (na nb : ℕ)
    (hminmax : nanminG (maskGrid g s) ≠ nanmaxG (maskGrid g s))
    (hva : getCell (maskGrid g s) i j = some va)
    (hvb : getCell (maskGrid g s) k l = some vb)
    (hlt : F.flt va vb = true)
    (hna : getCell (convert_tiff_to_heightmap g s) i j = some na)
    (hnb : getCell (convert_tiff_to_heightmap g s) k l = some nb) :
    na ≤ nb := by
  obtain ⟨hva_nan, hvb_nan⟩ := flt_ne_nan hlt
  by_cases hcl : isclose (nanminG (maskGrid g s)) (nanmaxG (maskGrid g s)) = true
  · rw [convert_flat_getCell i j hcl, hva] at hna
    rw [convert_flat_getCell k l hcl, hvb] at hnb
    simp only [Option.map_some', Option.some.injEq] at hna hnb
    omega
  · rw [Bool.not_eq_true] at hcl
    rw [convert_scale_getCell i j hcl, hva] at hna
    rw [convert_scale_getCell k l hcl, hvb] at hnb
    simp only [Option.map_some', Option.some.injEq] at hna hnb
    subst hna hnb
    exact scaleCell_mono (nanminG_le (mem_validVals hva hva_nan))
      (le_nanmaxG (mem_validVals hvb hvb_nan)) hlt

/-- Witness for C4 on the grid of spec scenario 1, cells (0,0) and (1,1). -/
theorem scaling_monotone_witness :
    nanminG (maskGrid [[F.fin 1, F.fin 2], [F.fin 3, F.fin 4]] none)
        ≠ nanmaxG (maskGrid [[F.fin 1, F.fin 2], [F.fin 3, F.fin 4]] none) ∧
    (0 : ℕ) ≤ 255 :=
  ⟨by with_unfolding_all decide,
    scaling_monotone [[F.fin 1, F.fin 2], [F.fin 3, F.fin 4]] none 0 0 1 1
      (F.fin 1) (F.fin 4) 0 255 (by with_unfolding_all decide)
      (by with_unfolding_all rfl) (by with_unfolding_all rfl)
      (by with_unfolding_all rfl) (by with_unfolding_all rfl)
      (by with_unfolding_all rfl)⟩

/-- The closeness test is reflexive on finite values. -/
lemma isclose_fin_refl (x : ℚ) : isclose (F.fin x) (F.fin x) = true := by
  show decide (|x - x| ≤ atol + rtol * |x|) = true
  rw [decide_eq_true_eq, sub_self, abs_zero]
  have h1 : (0 : ℚ) ≤ rtol * |x| := by unfold rtol; positivity
  have h2 : (0 : ℚ) < atol := by norm_num [atol]
  linarith

/-- With a nonzero finite range, the cell holding the minimum scales to 0. -/
lemma scaleCell_at_min {m M : ℚ} (hne : M - m ≠ 0) :
    scaleCell (F.fin m) (F.fin M) (F.fin m) = 0 := by
  rw [scaleCell_fin_fin_eval m hne]
  norm_num [clipQ]

/-- With a nonzero finite range, the cell holding the maximum scales to 255. -/
lemma scaleCell_at_max {m M : ℚ} (hne : M - m ≠ 0) :
    scaleCell (F.fin m) (F.fin M) (F.fin M) = 255 := by
  rw [scaleCell_fin_fin_eval M hne, div_self hne]
  norm_num [clipQ]
  decide

/-- Counterexample to C3 as stated: on the grid `[[0, 1e-9]]` with no
sentinel the valid minimum 0 differs from the valid maximum 1e-9, yet the
cell attaining the minimum is output as 128, not 0, because the two
extremes pass the `np.isclose` tolerance test and the flat branch runs. -/
theorem min_to_zero_counterexample :
    nanminG (maskGrid [[F.fin 0, F.fin (1 / 1000000000)]] none)
        ≠ nanmaxG (maskGrid [[F.fin 0, F.fin (1 / 1000000000)]] none) ∧
    getCell (maskGrid [[F.fin 0, F.fin (1 / 1000000000)]] none) 0 0
        = some (nanminG (maskGrid [[F.fin 0, F.fin (1 / 1000000000)]] none)) ∧
    getCell (convert_tiff_to_heightmap [[F.fin 0, F.fin (1 / 1000000000)]] none) 0 0
        = some 128 :=
  ⟨by with_unfolding_all decide, by with_unfolding_all rfl, by with_unfolding_all rfl⟩

/-- C3 amended: when the valid minimum and maximum are finite and fail the
`np.isclose` degeneracy test, each cell attaining the valid minimum maps
to intensity exactly 0 and each cell attaining the valid maximum to
exactly 255. -/
theorem boundary_cells_map_to_extremes (g : List (List F)) (s : Option F)
    (i j : ℕ) (v : F) (m M : ℚ)
    (hmin : nanminG (maskGrid g s) = F.fin m)
    (hmax : nanmaxG (maskGrid g s) = F.fin M)
    (hcl : isclose (nanminG (maskGrid g s)) (nanmaxG (maskGrid g s)) = false)
    (hv : getCell (maskGrid g s) i j = some v) :
    (v = F.fin m → getCell (convert_tiff_to_heightmap g s) i j = some 0) ∧
    (v = F.fin M → getCell (convert_tiff_to_heightmap g s) i j = some 255) := by
  have hne : M - m ≠ 0 := by
    intro h0
    have hMm : M = m := by linarith [sub_eq_zero.mp h0]
    rw [hmin, hmax, hMm] at hcl
    rw [isclose_fin_refl] at hcl
    cases hcl
  have hget := convert_scale_getCell (g := g) (s := s) i j hcl
  rw [hmin, hmax, hv] at hget
  constructor
  · intro hvm
    subst hvm
    rw [hget]
    simp only [Option.map_some', Option.some.injEq]
    exact scaleCell_at_min hne
  · intro hvM
    subst hvM
    rw [hget]
    simp only [Option.map_some', Option.some.injEq]
    exact scaleCell_at_max hne

/-- Witness for the amended C3 on the grid `[[1, 4]]`: the minimum cell. -/
theorem boundary_cells_map_to_extremes_witness :
    (F.fin 1 = F.fin (1 : ℚ) →
      getCell (convert_tiff_to_heightmap [[F.fin 1, F.fin 4]] none) 0 0 = some 0) ∧
    (F.fin 1 = F.fin (4 : ℚ) →
      getCell (convert_tiff_to_heightmap [[F.fin 1, F.fin 4]] none) 0 0 = some 255) :=
  boundary_cells_map_to_extremes [[F.fin 1, F.fin 4]] none 0 0 (F.fin 1) 1 4
    (by with_unfolding_all rfl) (by with_unfolding_all rfl)
    (by with_unfolding_all rfl) (by with_unfolding_all rfl)

/-- The clip-and-fallback stage always yields a finite value in [0, 1]. -/
lemma nanToNum_clip01_fin (f : F) :
    ∃ c : ℚ, nanToNum (clip01 f) = F.fin c ∧ 0 ≤ c ∧ c ≤ 1 := by
  cases f with
  | nan => exact ⟨0, rfl, le_refl 0, by norm_num⟩
  | pinf => exact ⟨1, rfl, by norm_num, le_refl 1⟩
  | ninf => exact ⟨0, rfl, le_refl 0, by norm_num⟩
  | fin q => exact ⟨clipQ q, rfl, clipQ_nonneg q, clipQ_le_one q⟩

/-- C6: in the non-degenerate scaling branch, every output cell is the
trunc-toward-zero (integer cast) of 255 times the clipped,
fallback-substituted normalized value — which lies in [0, 1], so the cast
is a plain floor with no wrap-around and not a round-to-nearest. -/
theorem scaling_truncates_toward_zero (g : List (List F)) (s : Option F)
    (i j : ℕ) (n : ℕ)
    (hcl : isclose (nanminG (maskGrid g s)) (nanmaxG (maskGrid g s)) = false)
    (hn : getCell (convert_tiff_to_heightmap g s) i j = some n) :
    ∃ v c, getCell (maskGrid g s) i j = some v ∧
      nanToNum (clip01 (fdiv (fsub v (nanminG (maskGrid g s)))
        (fsub (nanmaxG (maskGrid g s)) (nanminG (maskGrid g s))))) = F.fin c ∧
      0 ≤ c ∧ c ≤ 1 ∧
      n = (truncQ (255 * c)).toNat ∧ truncQ (255 * c) = ⌊(255 : ℚ) * c⌋ := by
  rw [convert_scale_getCell i j hcl] at hn
  cases hv : getCell (maskGrid g s) i j with
  | none => rw [hv] at hn; cases hn
  | some v =>
    rw [hv] at hn
    simp only [Option.map_some', Option.some.injEq] at hn
    obtain ⟨c, hc, hc0, hc1⟩ := nanToNum_clip01_fin
      (fdiv (fsub v (nanminG (maskGrid g s)))
        (fsub (nanmaxG (maskGrid g s)) (nanminG (maskGrid g s))))
    have h2550 : (0 : ℚ) ≤ 255 * c := by positivity
    have htr : truncQ (255 * c) = ⌊(255 : ℚ) * c⌋ := by simp [truncQ, h2550]
    refine ⟨v, c, rfl, hc, hc0, hc1, ?_, htr⟩
    subst hn
    simp only [scaleCell, hc, fmul, toUInt8]
    have h255 : (255 : ℚ) * c ≤ 255 := by nlinarith
    have hfl0 : (0 : ℤ) ≤ ⌊(255 : ℚ) * c⌋ := Int.floor_nonneg.mpr h2550
    have hfl255 : (⌊(255 : ℚ) * c⌋ : ℚ) ≤ 255 := le_trans (Int.floor_le _) h255
    have hlt256 : ⌊(255 : ℚ) * c⌋ < 256 := by
      have : ⌊(255 : ℚ) * c⌋ ≤ 255 := by exact_mod_cast hfl255
      omega
    rw [htr, Int.emod_eq_of_lt hfl0 hlt256]

/-- Witness for C6 on the grid `[[0, 1, 2]]`, middle cell: the clipped
value is 1/2, and truncation gives 127 where rounding to nearest would
give 128. -/
theorem scaling_truncates_toward_zero_witness :
    (∃ v c, getCell (maskGrid [[F.fin 0, F.fin 1, F.fin 2]] none) 0 1 = some v ∧
      nanToNum (clip01 (fdiv (fsub v (nanminG (maskGrid [[F.fin 0, F.fin 1, F.fin 2]] none)))
        (fsub (nanmaxG (maskGrid [[F.fin 0, F.fin 1, F.fin 2]] none))
          (nanminG (maskGrid [[F.fin 0, F.fin 1, F.fin 2]] none))))) = F.fin c ∧
      0 ≤ c ∧ c ≤ 1 ∧
      (127 : ℕ) = (truncQ (255 * c)).toNat ∧ truncQ (255 * c) = ⌊(255 : ℚ) * c⌋) ∧
    (truncQ (255 * (1 / 2 : ℚ))).toNat = 127 ∧ round ((255 : ℚ) * (1 / 2)) = 128 :=
  ⟨scaling_truncates_toward_zero [[F.fin 0, F.fin 1, F.fin 2]] none 0 1 127
      (by with_unfolding_all rfl) (by with_unfolding_all rfl),
    by with_unfolding_all rfl, by norm_num [round_eq]⟩

/-- C7: spec scenario 1. On `[[1,2],[3,4]]` with no sentinel the
statistics are min 1, max 4, mean 5/2 and variance 5/4 — so the reported
population standard deviation, its square root, lies strictly between
1.118 and 1.119 — and the output grid is `[[0,85],[170,255]]`. -/
theorem scenario_one_stats_and_output :
    statsOf [[F.fin 1, F.fin 2], [F.fin 3, F.fin 4]] none
        = (F.fin 1, F.fin 4, F.fin (5 / 2), F.fin (5 / 4)) ∧
    ((1118 : ℚ) / 1000) ^ 2 < 5 / 4 ∧ ((5 : ℚ) / 4) < ((1119 : ℚ) / 1000) ^ 2 ∧
    convert_tiff_to_heightmap [[F.fin 1, F.fin 2], [F.fin 3, F.fin 4]] none
        = [[0, 85], [170, 255]] :=
  ⟨by with_unfolding_all rfl, by norm_num, by norm_num, by with_unfolding_all rfl⟩

/-- Flattening the masked grid is masking the flattened grid. -/
lemma maskGrid_flatten (g : List (List F)) (s : Option F) :
    (maskGrid g s).flatten = g.flatten.map (maskCell s) := by
  unfold maskGrid
  induction g with
  | nil => rfl
  | cons r rs ih =>
    simp only [List.map_cons, List.flatten_cons, List.map_append, ih]

/-- C8: totality. The normalization core never fails on a grid with at
least one cell: the explicit-error variant returns the normal result, the
single possible numpy failure (a zero-size reduction) being excluded. -/
theorem normalization_total (g : List (List F)) (s : Option F)
    (h : g.flatten ≠ []) :
    convertChecked g s = Except.ok (convert_tiff_to_heightmap g s) := by
  have hm : (maskGrid g s).flatten ≠ [] := by
    rw [maskGrid_flatten]
    simpa using h
  unfold convertChecked
  rw [if_neg hm]

/-- Witness for C8 on a one-cell grid. -/
theorem normalization_total_witness :
    ([[F.fin 5]] : List (List F)).flatten ≠ [] ∧
    convertChecked [[F.fin 5]] none
      = Except.ok (convert_tiff_to_heightmap [[F.fin 5]] none) :=
  ⟨by with_unfolding_all decide,
    normalization_total [[F.fin 5]] none (by with_unfolding_all decide)⟩

/-- A cell equal to the sentinel is masked to NaN (also when the sentinel
itself is NaN, in which case the comparison fails and the NaN is kept). -/
lemma maskCell_sentinel (sv : F) : maskCell (some sv) sv = F.nan := by
  cases sv <;> simp [maskCell, F.feq]

/-- A NaN cell stays NaN under masking. -/
lemma maskCell_nan (s : Option F) : maskCell s F.nan = F.nan := by
  cases s with
  | none => rfl
  | some sv => cases sv <;> simp [maskCell, F.feq]

/-- Scaling against a NaN range sends every cell to 0. -/
lemma scaleCell_nan_nan (v : F) : scaleCell F.nan F.nan v = 0 := by
  cases v <;> simp [scaleCell, fsub, fdiv, fmul, clip01, nanToNum, toUInt8, truncQ]

/-- C9: on a grid whose every cell equals the sentinel, the masked grid is
all NaN, all four statistics are NaN, the NaN-against-NaN closeness check
is false so the scaling branch runs, and every output cell is 0 (through
the NaN fallback), not the flat 128. -/
theorem all_sentinel_grid (g : List (List F)) (sv : F)
    (h : ∀ v ∈ g.flatten, v = sv) :
    (∀ u ∈ (maskGrid g (some sv)).flatten, u = F.nan) ∧
    statsOf g (some sv) = (F.nan, F.nan, F.nan, F.nan) ∧
    isclose F.nan F.nan = false ∧
    (∀ n ∈ (convert_tiff_to_heightmap g (some sv)).flatten, n = 0) := by
  have hmask : ∀ u ∈ (maskGrid g (some sv)).flatten, u = F.nan := by
    intro u hu
    rw [maskGrid_flatten] at hu
    rcases List.mem_map.mp hu with ⟨a, ha, rfl⟩
    rw [h a ha]
    exact maskCell_sentinel sv
  have hvv : validVals (maskGrid g (some sv)) = [] := by
    unfold validVals
    rw [List.filter_eq_nil_iff]
    intro a ha
    simp [hmask a ha]
  have hmin : nanminG (maskGrid g (some sv)) = F.nan := by simp [nanminG, hvv]
  have hmax : nanmaxG (maskGrid g (some sv)) = F.nan := by simp [nanmaxG, hvv]
  have hmean : nanmeanG (maskGrid g (some sv)) = F.nan := by
    simp [nanmeanG, hvv, fdiv]
  have hvar : nanvarG (maskGrid g (some sv)) = F.nan := by
    simp [nanvarG, hvv, fdiv]
  refine ⟨hmask, ?_, rfl, ?_⟩
  · simp only [statsOf]
    rw [hmin, hmax, hmean, hvar]
  · intro n hn
    simp only [convert_tiff_to_heightmap] at hn
    rw [hmin, hmax] at hn
    rw [if_neg (by decide)] at hn
    obtain ⟨a, haf, rfl⟩ := mem_flatten_map hn
    exact scaleCell_nan_nan a

/-- Witness for C9 on the one-cell all-sentinel grid. -/
theorem all_sentinel_grid_witness :
    (∀ v ∈ ([[F.fin (-99)]] : List (List F)).flatten, v = F.fin (-99)) ∧
    ((∀ u ∈ (maskGrid [[F.fin (-99)]] (some (F.fin (-99)))).flatten, u = F.nan) ∧
      statsOf [[F.fin (-99)]] (some (F.fin (-99))) = (F.nan, F.nan, F.nan, F.nan) ∧
      isclose F.nan F.nan = false ∧
      (∀ n ∈ (convert_tiff_to_heightmap [[F.fin (-99)]]
          (some (F.fin (-99)))).flatten, n = 0)) :=
  ⟨by simp, all_sentinel_grid [[F.fin (-99)]] (F.fin (-99)) (by simp)⟩

/-- Updating a cell whose masked value is NaN with another value that also
masks to NaN leaves the masked working grid unchanged. -/
lemma maskGrid_setCell_invalid {g : List (List F)} {s : Option F} {i j : ℕ} {a w : F}
    (hcell : getCell g i j = some a)
    (ha : maskCell s a = F.nan) (hw : maskCell s w = F.nan) :
    maskGrid (setCell g i j w) s = maskGrid g s := by
  unfold getCell at hcell
  cases hg : g[i]? with
  | none => rw [hg] at hcell; cases hcell
  | some row =>
    rw [hg] at hcell
    simp only [Option.some_bind] at hcell
    have hD : g.getD i [] = row := by
      rw [List.getD_eq_getElem?_getD, hg]
      rfl
    unfold setCell maskGrid
    rw [hD]
    simp only [map_set_comm]
    rw [hw]
    have h1 : (row.map (maskCell s))[j]? = some F.nan := by
      rw [List.getElem?_map, hcell]
      simp [ha]
    rw [set_self_of_getElem _ _ _ h1]
    have h2 : (g.map (fun r => r.map (maskCell s)))[i]? = some (row.map (maskCell s)) := by
      rw [List.getElem?_map, hg]
      rfl
    exact set_self_of_getElem _ _ _ h2

/-- The statistics depend on the input only through the masked grid. -/
lemma statsOf_congr {g g' : List (List F)} {s : Option F}
    (h : maskGrid g s = maskGrid g' s) : statsOf g s = statsOf g' s := by
  unfold statsOf
  rw [h]

/-- C10: NaN input cells are excluded from the four statistics exactly as
sentinel-masked cells are: NaN never enters the aggregated value list (for
any sentinel configuration), and swapping a NaN cell for a sentinel cell
leaves all four statistics unchanged. -/
theorem nan_cells_excluded_like_sentinel (g : List (List F)) (q : ℚ) (i j : ℕ)
    (h : getCell g i j = some F.nan) :
    (∀ s0 : Option F, F.nan ∉ validVals (maskGrid g s0)) ∧
    statsOf (setCell g i j (F.fin q)) (some (F.fin q)) = statsOf g (some (F.fin q)) := by
  constructor
  · intro s0 hmem
    exact validVals_ne_nan hmem rfl
  · exact statsOf_congr
      (maskGrid_setCell_invalid h (maskCell_nan _) (maskCell_sentinel (F.fin q)))

/-- Witness for C10: a NaN cell beside a valid cell, swapped for the
sentinel value 7. -/
theorem nan_cells_excluded_like_sentinel_witness :
    getCell [[F.nan, F.fin 1]] 0 0 = some F.nan ∧
    ((∀ s0 : Option F, F.nan ∉ validVals (maskGrid [[F.nan, F.fin 1]] s0)) ∧
      statsOf (setCell [[F.nan, F.fin 1]] 0 0 (F.fin 7)) (some (F.fin 7))
        = statsOf [[F.nan, F.fin 1]] (some (F.fin 7))) :=
  ⟨by with_unfolding_all rfl,
    nan_cells_excluded_like_sentinel [[F.nan, F.fin 1]] 7 0 0
      (by with_unfolding_all rfl)⟩

/-- Counterexample to C1 as stated: changing the value stored in an
invalid (sentinel-equal) cell to a valid value does change the reported
statistics — on `[[-99, 1]]` with sentinel −99, overwriting the invalid
cell with 3 moves the mean from 1 to 2. -/
theorem stats_invariance_counterexample :
    getCell [[F.fin (-99), F.fin 1]] 0 0 = some (F.fin (-99)) ∧
    statsOf (setCell [[F.fin (-99), F.fin 1]] 0 0 (F.fin 3)) (some (F.fin (-99)))
      ≠ statsOf [[F.fin (-99), F.fin 1]] (some (F.fin (-99))) :=
  ⟨by with_unfolding_all rfl, by with_unfolding_all decide⟩

/-- C1 amended: the statistics are computed only from cells not exactly
equal to the sentinel (the variance uses denominator = count of valid
cells), so overwriting an invalid cell with any value that is still
treated as invalid — the sentinel itself or NaN — leaves all reported
statistics unchanged. -/
theorem stats_from_valid_cells_only (g : List (List F)) (sv w : F) (i j : ℕ)
    (hcell : getCell g i j = some sv)
    (hw : w = sv ∨ w = F.nan) :
    statsOf (setCell g i j w) (some sv) = statsOf g (some sv) := by
  have hmw : maskCell (some sv) w = F.nan := by
    rcases hw with rfl | rfl
    · exact maskCell_sentinel _
    · exact maskCell_nan _
  exact statsOf_congr (maskGrid_setCell_invalid hcell (maskCell_sentinel sv) hmw)

/-- Witness for the amended C1: replacing a sentinel cell by NaN. -/
theorem stats_from_valid_cells_only_witness :
    getCell [[F.fin (-99), F.fin 1]] 0 0 = some (F.fin (-99)) ∧
    (F.nan = F.fin (-99) ∨ F.nan = F.nan) ∧
    statsOf (setCell [[F.fin (-99), F.fin 1]] 0 0 F.nan) (some (F.fin (-99)))
      = statsOf [[F.fin (-99), F.fin 1]] (some (F.fin (-99))) :=
  ⟨by with_unfolding_all rfl, Or.inr rfl,
    stats_from_valid_cells_only [[F.fin (-99), F.fin 1]] (F.fin (-99)) F.nan 0 0
      (by with_unfolding_all rfl) (Or.inr rfl)⟩
